import Mathlib

/-!
A verification development for the managed-connection layer and the
streaming-to-polling bridge of the `deepsage-ai/ai-body` examples.

Each Go component that the specification talks about is shallowly embedded
as executable Lean definitions, translated from the source files:

* `TaskCacheManager` / `TaskInfo` (agent-wework/internal/bot/handler.go)
* `StreamManager` / `StreamState` (agent-wework/internal/wework/stream.go)
* `SessionMCPManager` (streaming-mcp-chat/main.go, and the identical copy
  under `session`)
* `MCPHealthManager` (streaming-mcp-chat/main.go)

Time is modelled in whole seconds (`Nat`); external effects (network
probes, connect attempts, tool invocations) are modelled by explicit
outcome parameters and by counters in the state.
-/

/-! ## TaskInfo / TaskCacheManager (agent-wework handler.go)

`TaskInfo` mirrors the Go struct: `CurrentStep`, `MaxSteps`, the
accumulated `Content` (a `strings.Builder`), `IsProcessing`, `IsFinished`.
The fields `StreamID`, `CreatedTime` and `LastUpdate` play no role in the
claims (the task map is keyed separately, and `LastUpdate` is only ever
written), so they are not carried in the state.
-/

structure TaskInfo where
  question : String
  currentStep : Nat
  maxSteps : Nat
  content : String
  isProcessing : Bool
  isFinished : Bool
deriving DecidableEq, Repr

/-- Go `TaskCacheManager.Invoke` creates a task with `CurrentStep: 0`,
`MaxSteps: 10`, `IsProcessing: false`, `IsFinished: false` and empty
content. -/
def initTask (q : String) : TaskInfo :=
  { question := q, currentStep := 0, maxSteps := 10, content := ""
  , isProcessing := false, isFinished := false }

/-- The step-counting update at the head of `TaskCacheManager.GetAnswer`:
`if !task.IsFinished && task.CurrentStep < task.MaxSteps { task.CurrentStep++ }`. -/
def pollStep (t : TaskInfo) : TaskInfo :=
  if t.isFinished = false ∧ t.currentStep < t.maxSteps then
    { t with currentStep := t.currentStep + 1 }
  else t

/-- One event visible to a `TaskInfo` over its lifetime:

* `poll` — a `GetAnswer` call (its state effect);
* `begin` — `processTaskAsync` setting `IsProcessing = true`;
* `push s` — one agent event with content `s` being accumulated;
* `doneOk` — the completion epilogue of `processTaskAsync`
  (`IsProcessing = false; IsFinished = true; CurrentStep = MaxSteps`);
* `fail m` — the `RunStream` error path
  (`IsProcessing = false; IsFinished = true;` plus an error message
  appended to the content).
-/
inductive TaskOp where
  | poll : TaskOp
  | begin : TaskOp
  | push : String → TaskOp
  | doneOk : TaskOp
  | fail : String → TaskOp
deriving DecidableEq, Repr

/-- State transition of one `TaskInfo` under one `TaskOp`, translated from
`processTaskAsync` and `GetAnswer` in handler.go.  The `push` case keeps
the Go guard `if event.Content != ""`. -/
def stepTask (t : TaskInfo) : TaskOp → TaskInfo
  | .poll => pollStep t
  | .begin => { t with isProcessing := true }
  | .push s => if s = "" then t else { t with content := t.content ++ s }
  | .doneOk =>
      { t with isProcessing := false, isFinished := true
             , currentStep := t.maxSteps }
  | .fail m =>
      { t with isProcessing := false, isFinished := true
             , content := t.content ++ ("处理失败: " ++ m) }

/-- Run a task through a sequence of events. -/
def runTask (tr : List TaskOp) (t : TaskInfo) : TaskInfo :=
  tr.foldl stepTask t

/-- Go `TaskCacheManager.IsTaskFinish` on a present task: finished iff the
flag is set, or the step counter reached `MaxSteps`, or the producer is
not processing and some content exists. -/
def isTaskFinishT (t : TaskInfo) : Bool :=
  t.isFinished || decide (t.maxSteps ≤ t.currentStep) ||
    (!t.isProcessing && decide (t.content ≠ ""))

/-- The `for i := 0; i < step; i++` loops of `GetAnswer` that render
progress placeholder lines `"处理步骤 %d: <label>\n"`. -/
def progressLines (label : String) : Nat → String
  | 0 => ""
  | n + 1 =>
      progressLines label n ++ ("处理步骤 " ++ toString (n + 1) ++ ": " ++ label ++ "\n")

/-- Go `TaskCacheManager.GetAnswer` on a present task: bump the step counter,
then build the response string exactly as handler.go does.  Returns the
response together with the updated task. -/
def getAnswerT (t : TaskInfo) : String × TaskInfo :=
  let t1 := pollStep t
  let header := "收到问题：" ++ t1.question ++ "\n\n"
  let resp :=
    if t1.isProcessing = true ∧ t1.content = "" then
      header ++ progressLines "准备中..." t1.currentStep
    else if t1.content = "" then
      header ++ progressLines "已完成" t1.currentStep
    else
      header ++ ("AI回复:\n" ++ t1.content)
  (resp, t1)

/-! The registry level: `TaskCacheManager.tasks` is a map from stream id
to task.  Modelled as an association list with first-match lookup. -/

def lookupTask : List (String × TaskInfo) → String → Option TaskInfo
  | [], _ => none
  | (k, t) :: r, id => if k = id then some t else lookupTask r id

/-- Go `TaskCacheManager.GetAnswer` at the registry level: an absent task id
yields the fixed not-found text. -/
def getAnswerReg (tasks : List (String × TaskInfo)) (id : String) : String :=
  match lookupTask tasks id with
  | none => "任务不存在或已过期"
  | some t => (getAnswerT t).1

/-- Go `TaskCacheManager.IsTaskFinish` at the registry level: an absent task
id is reported finished. -/
def isTaskFinishReg (tasks : List (String × TaskInfo)) (id : String) : Bool :=
  match lookupTask tasks id with
  | none => true
  | some t => isTaskFinishT t

/-- Number of `poll` events in a trace. -/
def countPolls : List TaskOp → Nat
  | [] => 0
  | .poll :: r => countPolls r + 1
  | _ :: r => countPolls r

/-- The content fragments a trace appends to `task.Content`, in order:
non-empty pushed chunks, and the error message of the failure path. -/
def chunkOf : TaskOp → List String
  | .push s => if s = "" then [] else [s]
  | .fail m => ["处理失败: " ++ m]
  | _ => []

def producedOf : List TaskOp → List String
  | [] => []
  | o :: r => chunkOf o ++ producedOf r

def joinAll : List String → String
  | [] => ""
  | s :: r => s ++ joinAll r

/-! ## SessionMCPManager.CallTool de-duplication (streaming-mcp-chat/main.go)

`CallTool` is embedded as an interleaved two-caller machine over one
fingerprint (`callID`).  One caller executes three atomic regions,
translated from the source:

* pc 0 — take the lock, check `callCache[callID]`; hit: return the cached
  response; miss: release the lock;
* pc 1 — `ensureConnection` + `server.CallTool` outside the lock (the
  external `Invoke`; successive invocations are numbered so distinct
  external calls yield distinct response objects);
* pc 2 — retake the lock, double-check the cache; hit: return the cached
  response; miss: store and return the own response;
* pc 3 — done, `result` holds the returned response.
-/

structure DedupGlobal where
  cache : Option Nat
  invokeCount : Nat
deriving DecidableEq, Repr

structure DedupCaller where
  pc : Nat
  myResp : Nat
  result : Option Nat
deriving DecidableEq, Repr

structure DedupState where
  g : DedupGlobal
  a : DedupCaller
  b : DedupCaller
deriving DecidableEq, Repr

/-- One atomic region of `SessionMCPManager.CallTool` for one caller. -/
def callerStep (g : DedupGlobal) (c : DedupCaller) : DedupGlobal × DedupCaller :=
  match c.pc with
  | 0 =>
      match g.cache with
      | some r => (g, { c with pc := 3, result := some r })
      | none => (g, { c with pc := 1 })
  | 1 =>
      ({ g with invokeCount := g.invokeCount + 1 },
       { c with pc := 2, myResp := g.invokeCount })
  | 2 =>
      match g.cache with
      | some r => (g, { c with pc := 3, result := some r })
      | none =>
          ({ g with cache := some c.myResp },
           { c with pc := 3, result := some c.myResp })
  | _ => (g, c)

/-- Scheduler step: `false` advances caller A, `true` advances caller B.
A finished caller does not move. -/
def dedupStep (s : DedupState) (who : Bool) : DedupState :=
  if who then
    let p := callerStep s.g s.b
    { g := p.1, a := s.a, b := p.2 }
  else
    let p := callerStep s.g s.a
    { g := p.1, a := p.2, b := s.b }

/-- Initial state: empty `callCache`, both callers about to enter
`CallTool` with the same tool name and arguments (one `callID`). -/
def dedupInit : DedupState :=
  { g := { cache := none, invokeCount := 0 }
  , a := { pc := 0, myResp := 0, result := none }
  , b := { pc := 0, myResp := 0, result := none } }

/-- Run the two concurrent `CallTool` invocations under a schedule. -/
def runDedup (sched : List Bool) : DedupState :=
  sched.foldl dedupStep dedupInit

/-! ## SessionMCPManager.ensureConnection (streaming-mcp-chat/main.go and
src/unnamed/part_004, identical logic)

Time is in seconds; the reuse window `2*time.Minute` is 120.  Handles are
numbered by `nextHandle`; `connectCount` counts `createNewConnection`
calls (each performs one external connect), `closeCount` counts
`connection.Close()` calls performed by `cleanupConnection`.  The outcome
of the external liveness probe (`isConnectionAlive`, a 3s-bounded
`ListTools`) is the parameter `probeOk`. -/

structure SessionState where
  connection : Option Nat
  sessionActive : Bool
  lastActivity : Nat
  nextHandle : Nat
  connectCount : Nat
  closeCount : Nat
deriving DecidableEq, Repr

/-- Go `cleanupConnection`: close the live connection if any, clear the
handle, mark the session inactive. -/
def cleanupConnection (s : SessionState) : SessionState :=
  { s with connection := none, sessionActive := false,
           closeCount := if s.connection.isSome then s.closeCount + 1
                         else s.closeCount }

/-- Go `createNewConnection`: connect, store the handle, mark active,
record activity time. -/
def createNewConnection (now : Nat) (s : SessionState) : Nat × SessionState :=
  (s.nextHandle,
   { s with connection := some s.nextHandle, sessionActive := true,
            lastActivity := now, nextHandle := s.nextHandle + 1,
            connectCount := s.connectCount + 1 })

/-- Go `ensureConnection`: reuse-window check, then liveness probe, then
reuse or teardown-and-rebuild, exactly as in the source. -/
def ensureConnection (now : Nat) (probeOk : Bool) (s : SessionState) :
    Nat × SessionState :=
  match s.connection, s.sessionActive with
  | some h, true =>
      if 120 < now - s.lastActivity then
        createNewConnection now (cleanupConnection s)
      else if probeOk then
        (h, { s with lastActivity := now })
      else
        createNewConnection now (cleanupConnection s)
  | _, _ => createNewConnection now s

/-! ## MCPHealthManager (streaming-mcp-chat/main.go)

### reconnectLoop backoff

`backoff` starts at 1s, `maxBackoff` is 30s.  After each failed attempt
the loop does `time.Sleep(backoff); if backoff < maxBackoff { backoff *= 2 }`.
`backoffSeq k` is the backoff value in force for the sleep after failed
attempt `k + 1`; the elapsed wait before attempt `m` (for `m ≥ 2`) is
the sleep after attempt `m - 1`. -/

def backoffSeq : Nat → Nat
  | 0 => 1
  | k + 1 =>
      let p := backoffSeq k
      if p < 30 then 2 * p else p

/-- Wait (seconds) the loop sleeps between failed attempt `m - 1` and
attempt `m`. -/
def waitBeforeAttempt (m : Nat) : Nat := backoffSeq (m - 2)

/-! ### reconnectLoop retry budget

`maxRetries = 10`.  The loop runs while `!isHealthy && retryCount <
maxRetries`; attempt `i` (0-indexed by the retry counter before the
increment) succeeds iff `outcomes i = true` (connection created and its
independent `ListTools` test passed), in which case the loop stores
Healthy and returns.  `reconnectGo` carries the remaining budget, the
attempts made so far, and the health flag. -/

def reconnectGo (outcomes : Nat → Bool) : Nat → Nat → Bool → Nat × Bool
  | 0, attempts, healthy => (attempts, healthy)
  | r + 1, attempts, healthy =>
      if healthy then (attempts, healthy)
      else reconnectGo outcomes r (attempts + 1) (outcomes attempts)

/-- The `reconnectLoop` entered in an Unhealthy state with a budget of 10
attempts; result is (attempts performed, final health flag). -/
def runReconnectLoop (outcomes : Nat → Bool) : Nat × Bool :=
  reconnectGo outcomes 10 0 false

/-! ### performHealthCheck

On probe success, store Healthy.  On probe failure, only a
Healthy→Unhealthy transition stores Unhealthy and triggers a reconnect
sequence (`triggerReconnect`); a failing probe while already Unhealthy
changes nothing.  `sequencesStarted` counts `triggerReconnect` calls. -/

structure HealthSup where
  healthy : Bool
  sequencesStarted : Nat
deriving DecidableEq, Repr

def performHealthCheck (probeOk : Bool) (m : HealthSup) : HealthSup :=
  if probeOk then { m with healthy := true }
  else if m.healthy then
    { healthy := false, sequencesStarted := m.sequencesStarted + 1 }
  else m

/-! ### GetServer

If healthy, return the current server immediately (wait 0).  Otherwise
`select` on the reconnect notification channel, a 10s timer, and manager
shutdown.  The first arriving event is modelled as an optional
`(arrival time, event)`; an event arriving at `t ≥ 10` loses the race to
the timer.  After a reconnect signal the health flag is re-checked; the
handle returned then is the swapped-in one (`handleAfter`). -/

inductive WaitEvent where
  | signal : Bool → WaitEvent
  | shutdown : WaitEvent
deriving DecidableEq, Repr

inductive ServerResult where
  | server : Nat → ServerResult
  | timedOut : ServerResult
  | stopped : ServerResult
  | unavailable : ServerResult
deriving DecidableEq, Repr

def ServerResult.isServer : ServerResult → Bool
  | .server _ => true
  | _ => false

/-- Go `MCPHealthManager.GetServer`; the second component is the time spent
blocked (seconds). -/
def getServer (healthy : Bool) (handle handleAfter : Nat)
    (ev : Option (Nat × WaitEvent)) : ServerResult × Nat :=
  if healthy then (.server handle, 0)
  else
    match ev with
    | some (t, e) =>
        if t < 10 then
          match e with
          | .signal healthyAfter =>
              if healthyAfter then (.server handleAfter, t)
              else (.unavailable, t)
          | .shutdown => (.stopped, t)
        else (.timedOut, 10)
    | none => (.timedOut, 10)

/-! ## StreamManager (agent-wework/internal/wework/stream.go)

`StreamState` carries the full-replacement content, the `IsActive` flag
and `LastUpdate` (seconds).  `cleanupExpiredStreams` runs from a
5-minute ticker and deletes every stream that is inactive or whose
`LastUpdate` is more than 10 minutes (600 s) old. -/

structure StreamEntry where
  content : String
  isActive : Bool
  lastUpdate : Nat
deriving DecidableEq, Repr

/-- Go `StreamManager.UpdateStreamContent` on a present stream: reset the
builder, write the replacement content, refresh `LastUpdate`, and clear
`IsActive` when the caller reports the stream finished. -/
def updateStreamContent (now : Nat) (content : String) (isFinished : Bool)
    (e : StreamEntry) : StreamEntry :=
  { content := content
  , isActive := if isFinished then false else e.isActive
  , lastUpdate := now }

/-- Go `StreamState.GetStreamContent`: the stored content and the activity
flag. -/
def getStreamContent (e : StreamEntry) : String × Bool :=
  (e.content, e.isActive)

/-- Go `cleanupExpiredStreams` over the stream map at time `now`: an entry
survives iff it is active and was updated within the last 600 seconds. -/
def cleanupExpiredStreams (now : Nat) (streams : List (String × StreamEntry)) :
    List (String × StreamEntry) :=
  streams.filter fun p => !(600 < now - p.2.lastUpdate) && p.2.isActive

def lookupStream : List (String × StreamEntry) → String → Option StreamEntry
  | [], _ => none
  | (k, e) :: r, id => if k = id then some e else lookupStream r id

/-- Invariant of the two-caller `CallTool` machine: a finished caller
returned exactly the response stored in the cache, and something is
cached. -/
def DedupInv (s : DedupState) : Prop :=
  (s.a.pc = 3 → s.g.cache = s.a.result ∧ s.a.result.isSome = true) ∧
  (s.b.pc = 3 → s.g.cache = s.b.result ∧ s.b.result.isSome = true)

/-! ## Theorems -/

theorem runTask_nil (t : TaskInfo) : runTask [] t = t := rfl

theorem runTask_cons (o : TaskOp) (r : List TaskOp) (t : TaskInfo) :
    runTask (o :: r) t = runTask r (stepTask t o) := rfl

theorem maxSteps_stepTask (t : TaskInfo) (o : TaskOp) :
    (stepTask t o).maxSteps = t.maxSteps := by
  cases o <;> simp only [stepTask, pollStep] <;> (try split) <;> rfl

theorem maxSteps_runTask (tr : List TaskOp) :
    ∀ t : TaskInfo, (runTask tr t).maxSteps = t.maxSteps := by
  induction tr with
  | nil => intro t; rfl
  | cons o r ih =>
      intro t
      rw [runTask_cons, ih, maxSteps_stepTask]

theorem question_stepTask (t : TaskInfo) (o : TaskOp) :
    (stepTask t o).question = t.question := by
  cases o <;> simp only [stepTask, pollStep] <;> (try split) <;> rfl

theorem question_runTask (tr : List TaskOp) :
    ∀ t : TaskInfo, (runTask tr t).question = t.question := by
  induction tr with
  | nil => intro t; rfl
  | cons o r ih =>
      intro t
      rw [runTask_cons, ih, question_stepTask]

theorem finished_stepTask (t : TaskInfo) (o : TaskOp) (h : t.isFinished = true) :
    (stepTask t o).isFinished = true := by
  cases o <;> simp only [stepTask, pollStep] <;> (try split) <;> simp [h]

theorem finished_runTask (tr : List TaskOp) :
    ∀ t : TaskInfo, t.isFinished = true → (runTask tr t).isFinished = true := by
  induction tr with
  | nil => intro t h; exact h
  | cons o r ih =>
      intro t h
      exact ih _ (finished_stepTask t o h)

theorem finished_of_doneOk_mem (tr : List TaskOp) :
    ∀ t : TaskInfo, TaskOp.doneOk ∈ tr → (runTask tr t).isFinished = true := by
  induction tr with
  | nil => intro t h; cases h
  | cons o r ih =>
      intro t h
      rcases List.mem_cons.mp h with h1 | h2
      · rw [runTask_cons, ← h1]
        exact finished_runTask r _ rfl
      · exact ih _ h2

theorem finished_of_fail_mem (tr : List TaskOp) :
    ∀ (t : TaskInfo) (m : String), TaskOp.fail m ∈ tr →
      (runTask tr t).isFinished = true := by
  induction tr with
  | nil => intro t m h; cases h
  | cons o r ih =>
      intro t m h
      rcases List.mem_cons.mp h with h1 | h2
      · rw [runTask_cons, ← h1]
        exact finished_runTask r _ rfl
      · exact ih _ m h2

theorem currentStep_le_stepTask (t : TaskInfo) (o : TaskOp)
    (h : t.currentStep ≤ t.maxSteps) :
    (stepTask t o).currentStep ≤ (stepTask t o).maxSteps := by
  cases o with
  | poll =>
      simp only [stepTask, pollStep]
      split
      · rename_i hc
        simpa using hc.2
      · exact h
  | begin => exact h
  | push s =>
      simp only [stepTask]
      split
      · exact h
      · exact h
  | doneOk => exact Nat.le_refl _
  | fail m => exact h

theorem currentStep_le_runTask (tr : List TaskOp) :
    ∀ t : TaskInfo, t.currentStep ≤ t.maxSteps →
      (runTask tr t).currentStep ≤ (runTask tr t).maxSteps := by
  induction tr with
  | nil => intro t h; exact h
  | cons o r ih =>
      intro t h
      exact ih _ (currentStep_le_stepTask t o h)

theorem runTask_polls_lower (tr : List TaskOp) :
    ∀ t : TaskInfo, t.maxSteps = 10 →
      (runTask tr t).isFinished = true ∨
        min 10 (t.currentStep + countPolls tr) ≤ (runTask tr t).currentStep := by
  induction tr with
  | nil =>
      intro t h
      right
      simp only [runTask_nil, countPolls]
      omega
  | cons o r ih =>
      intro t hmax
      cases o with
      | poll =>
          rw [runTask_cons]
          by_cases hc : t.isFinished = false ∧ t.currentStep < t.maxSteps
          · have hstep : stepTask t .poll = { t with currentStep := t.currentStep + 1 } := by
              simp [stepTask, pollStep, hc]
            rw [hstep]
            rcases ih { t with currentStep := t.currentStep + 1 } hmax with h1 | h2
            · exact Or.inl h1
            · right
              have hd : ({ t with currentStep := t.currentStep + 1 } : TaskInfo).currentStep
                  = t.currentStep + 1 := rfl
              rw [hd] at h2
              simp only [countPolls]
              omega
          · have hstep : stepTask t .poll = t := by
              simp [stepTask, pollStep, hc]
            rw [hstep]
            rcases not_and_or.mp hc with h1 | h2
            · left
              exact finished_runTask r t (by simpa using h1)
            · rcases ih t hmax with h3 | h4
              · exact Or.inl h3
              · right
                simp only [countPolls]
                omega
      | begin =>
          rw [runTask_cons]
          exact ih { t with isProcessing := true } hmax
      | push s =>
          rw [runTask_cons]
          by_cases hs : s = ""
          · rw [show stepTask t (.push s) = t by simp [stepTask, hs]]
            exact ih t hmax
          · rw [show stepTask t (.push s) = { t with content := t.content ++ s } by
              simp [stepTask, hs]]
            exact ih { t with content := t.content ++ s } hmax
      | doneOk =>
          rw [runTask_cons]
          exact Or.inl (finished_runTask r _ rfl)
      | fail m =>
          rw [runTask_cons]
          exact Or.inl (finished_runTask r _ rfl)

theorem isTaskFinishT_of_finished (t : TaskInfo) (h : t.isFinished = true) :
    isTaskFinishT t = true := by
  simp [isTaskFinishT, h]

theorem isTaskFinishT_of_step (t : TaskInfo) (h : t.maxSteps ≤ t.currentStep) :
    isTaskFinishT t = true := by
  simp [isTaskFinishT, h]

theorem content_stepTask (t : TaskInfo) (o : TaskOp) :
    (stepTask t o).content = t.content ++ joinAll (chunkOf o) := by
  cases o with
  | poll =>
      simp only [stepTask, pollStep, chunkOf, joinAll]
      split <;> simp [String.append_empty]
  | begin => simp [stepTask, chunkOf, joinAll, String.append_empty]
  | push s =>
      by_cases hs : s = "" <;>
        simp [stepTask, chunkOf, joinAll, hs, String.append_empty]
  | doneOk => simp [stepTask, chunkOf, joinAll, String.append_empty]
  | fail m => simp [stepTask, chunkOf, joinAll, String.append_empty]

theorem joinAll_append (l1 l2 : List String) :
    joinAll (l1 ++ l2) = joinAll l1 ++ joinAll l2 := by
  induction l1 with
  | nil => simp [joinAll, String.empty_append]
  | cons s r ih => simp [joinAll, ih, String.append_assoc]

theorem content_runTask (tr : List TaskOp) :
    ∀ t : TaskInfo, (runTask tr t).content = t.content ++ joinAll (producedOf tr) := by
  induction tr with
  | nil => intro t; simp [runTask_nil, producedOf, joinAll, String.append_empty]
  | cons o r ih =>
      intro t
      rw [runTask_cons, ih, content_stepTask, producedOf, joinAll_append,
        String.append_assoc]

theorem content_pollStep (t : TaskInfo) : (pollStep t).content = t.content := by
  unfold pollStep
  split <;> rfl

theorem question_pollStep (t : TaskInfo) : (pollStep t).question = t.question := by
  unfold pollStep
  split <;> rfl

/-- C10: a `streamID` absent from the task registry makes `GetAnswer`
return the fixed not-found text `"任务不存在或已过期"` and makes
`IsTaskFinish` return `true`, so a poller holding an unknown or deleted
identifier terminates instead of polling forever. -/
theorem C10_unknown_task_reports_finished
    (tasks : List (String × TaskInfo)) (id : String)
    (h : lookupTask tasks id = none) :
    getAnswerReg tasks id = "任务不存在或已过期" ∧
      isTaskFinishReg tasks id = true := by
  constructor
  · unfold getAnswerReg
    rw [h]
  · unfold isTaskFinishReg
    rw [h]

/-- Witness for C10 at the empty registry and the identifier `"missing"`. -/
theorem C10_witness :
    lookupTask [] "missing" = none ∧
      (getAnswerReg [] "missing" = "任务不存在或已过期" ∧
        isTaskFinishReg [] "missing" = true) :=
  ⟨rfl, C10_unknown_task_reports_finished [] "missing" rfl⟩

/-- C2 counterexample: starting from a fresh task whose producer has
started but never signalled completion (no `doneOk`/`fail` in the trace;
`IsProcessing` is still `true` and `IsFinished` still `false`), ten
`GetAnswer` polls alone drive `CurrentStep` to `MaxSteps`, and
`IsTaskFinish` reports `true` — the code reports a task finished merely
because polls occurred, contradicting the claim. -/
theorem C2_counterexample :
    (runTask (TaskOp.begin :: List.replicate 10 TaskOp.poll) (initTask "q")).isFinished
        = false ∧
      (runTask (TaskOp.begin :: List.replicate 10 TaskOp.poll) (initTask "q")).isProcessing
        = true ∧
      isTaskFinishT (runTask (TaskOp.begin :: List.replicate 10 TaskOp.poll) (initTask "q"))
        = true := by
  exact ⟨rfl, rfl, rfl⟩

/-- C2 (amended): `IsTaskFinish` reports a task finished as soon as the
producer has stopped (normal completion or stream error immediately set
`IsFinished`, with no requirement that the buffered content has been
surfaced), and also as soon as ten polls have occurred, even while the
producer is still running. -/
theorem C2_finish_reporting (q : String) (tr : List TaskOp) :
    (TaskOp.doneOk ∈ tr → isTaskFinishT (runTask tr (initTask q)) = true) ∧
      (∀ m : String, TaskOp.fail m ∈ tr →
        isTaskFinishT (runTask tr (initTask q)) = true) ∧
      (10 ≤ countPolls tr → isTaskFinishT (runTask tr (initTask q)) = true) := by
  refine ⟨fun h => isTaskFinishT_of_finished _ (finished_of_doneOk_mem tr _ h),
    fun m h => isTaskFinishT_of_finished _ (finished_of_fail_mem tr _ m h),
    fun h => ?_⟩
  rcases runTask_polls_lower tr (initTask q) rfl with h1 | h2
  · exact isTaskFinishT_of_finished _ h1
  · apply isTaskFinishT_of_step
    rw [maxSteps_runTask]
    have h0 : (initTask q).currentStep = 0 := rfl
    have hm : (initTask q).maxSteps = 10 := rfl
    rw [h0] at h2
    rw [hm]
    omega

/-- Witness for C2 (amended): a trace whose producer completes makes the
task report finished. -/
theorem C2_witness :
    TaskOp.doneOk ∈ [TaskOp.begin, TaskOp.doneOk] ∧
      isTaskFinishT (runTask [TaskOp.begin, TaskOp.doneOk] (initTask "q")) = true :=
  ⟨by decide, (C2_finish_reporting "q" [TaskOp.begin, TaskOp.doneOk]).1 (by decide)⟩

/-- C3 counterexample: after the producer pushes the single chunk `"a"`,
`GetAnswer` does not return the bare concatenation `"a"` of the chunks
pushed so far — it embeds it in the fixed framing
`"收到问题：q\n\nAI回复:\na"`, so the poll response is not *exactly* the
concatenation. -/
theorem C3_counterexample :
    producedOf [TaskOp.begin, TaskOp.push "a"] = ["a"] ∧
      (getAnswerT (runTask [TaskOp.begin, TaskOp.push "a"] (initTask "q"))).1
        ≠ joinAll (producedOf [TaskOp.begin, TaskOp.push "a"]) := by
  exact ⟨rfl, by decide⟩

/-- C3 (amended): the accumulated task content is always exactly the
concatenation, in production order with nothing dropped, of all chunks
pushed so far (including the error message of the failure path), and
whenever some content exists every `GetAnswer` poll returns precisely
that concatenation embedded in the fixed framing
`"收到问题：<question>\n\n" ++ "AI回复:\n" ++ <content>`. -/
theorem C3_accumulating_content (q : String) (tr : List TaskOp) :
    (runTask tr (initTask q)).content = joinAll (producedOf tr) ∧
      ((runTask tr (initTask q)).content ≠ "" →
        (getAnswerT (runTask tr (initTask q))).1 =
          "收到问题：" ++ q ++ "\n\n" ++ ("AI回复:\n" ++ joinAll (producedOf tr))) := by
  have hc : (runTask tr (initTask q)).content = joinAll (producedOf tr) := by
    have h0 := content_runTask tr (initTask q)
    rw [show (initTask q).content = "" from rfl, String.empty_append] at h0
    exact h0
  refine ⟨hc, fun hne => ?_⟩
  have hq : (pollStep (runTask tr (initTask q))).question = q := by
    rw [question_pollStep, question_runTask]
    rfl
  have hcp : (pollStep (runTask tr (initTask q))).content = joinAll (producedOf tr) := by
    rw [content_pollStep, hc]
  have hne' : ¬(pollStep (runTask tr (initTask q))).content = "" := by
    rw [hcp, ← hc]
    exact hne
  simp only [getAnswerT, hq, hcp]
  rw [if_neg (by exact fun hx => hne' (by rw [hcp]; exact hx.2)),
    if_neg (by rw [hcp] at hne'; exact hne')]

/-- Witness for C3 (amended) on a concrete trace with two pushed chunks. -/
theorem C3_witness :
    (runTask [TaskOp.begin, TaskOp.push "a", TaskOp.push "b"] (initTask "q")).content
        = joinAll (producedOf [TaskOp.begin, TaskOp.push "a", TaskOp.push "b"]) ∧
      (getAnswerT (runTask [TaskOp.begin, TaskOp.push "a", TaskOp.push "b"] (initTask "q"))).1
        = "收到问题：" ++ "q" ++ "\n\n" ++
            ("AI回复:\n" ++ joinAll (producedOf [TaskOp.begin, TaskOp.push "a", TaskOp.push "b"])) :=
  ⟨(C3_accumulating_content "q" [TaskOp.begin, TaskOp.push "a", TaskOp.push "b"]).1,
   (C3_accumulating_content "q" [TaskOp.begin, TaskOp.push "a", TaskOp.push "b"]).2
     (by decide)⟩

/-- C9: on every trace of task events, `CurrentStep` never exceeds
`MaxSteps = 10`; while `IsTaskFinish` is false a `GetAnswer` poll
increments `CurrentStep` by exactly one; `IsTaskFinish` is true whenever
`CurrentStep` has reached 10; and after at least ten polls the task
reports finished even if the producer is still running. -/
theorem C9_poll_budget (q : String) (tr : List TaskOp) :
    (runTask tr (initTask q)).currentStep ≤ 10 ∧
      (isTaskFinishT (runTask tr (initTask q)) = false →
        (stepTask (runTask tr (initTask q)) TaskOp.poll).currentStep =
          (runTask tr (initTask q)).currentStep + 1) ∧
      (10 ≤ (runTask tr (initTask q)).currentStep →
        isTaskFinishT (runTask tr (initTask q)) = true) ∧
      (10 ≤ countPolls tr → isTaskFinishT (runTask tr (initTask q)) = true) := by
  refine ⟨?_, ?_, ?_, ?_⟩
  · have h := currentStep_le_runTask tr (initTask q) (Nat.zero_le _)
    rw [maxSteps_runTask] at h
    exact h
  · intro hf
    simp only [isTaskFinishT, Bool.or_eq_false_iff, decide_eq_false_iff_not,
      not_le] at hf
    simp only [stepTask, pollStep]
    rw [if_pos ⟨hf.1.1, hf.1.2⟩]
  · intro hs
    apply isTaskFinishT_of_step
    rw [maxSteps_runTask]
    exact hs
  · intro h
    rcases runTask_polls_lower tr (initTask q) rfl with h1 | h2
    · exact isTaskFinishT_of_finished _ h1
    · apply isTaskFinishT_of_step
      rw [maxSteps_runTask]
      have h0 : (initTask q).currentStep = 0 := rfl
      have hm : (initTask q).maxSteps = 10 := rfl
      rw [h0] at h2
      rw [hm]
      omega

/-- Witness for C9 at a trace of exactly ten polls. -/
theorem C9_witness :
    (runTask (List.replicate 10 TaskOp.poll) (initTask "q")).currentStep ≤ 10 ∧
      isTaskFinishT (runTask (List.replicate 10 TaskOp.poll) (initTask "q")) = true :=
  ⟨(C9_poll_budget "q" (List.replicate 10 TaskOp.poll)).1,
   (C9_poll_budget "q" (List.replicate 10 TaskOp.poll)).2.2.2 (by decide)⟩

theorem callerStep_inv (g : DedupGlobal) (c d : DedupCaller)
    (hc : c.pc = 3 → g.cache = c.result ∧ c.result.isSome = true)
    (hd : d.pc = 3 → g.cache = d.result ∧ d.result.isSome = true) :
    ((callerStep g c).2.pc = 3 →
        (callerStep g c).1.cache = (callerStep g c).2.result ∧
          (callerStep g c).2.result.isSome = true) ∧
      (d.pc = 3 →
        (callerStep g c).1.cache = d.result ∧ d.result.isSome = true) := by
  by_cases h0 : c.pc = 0
  · cases hcache : g.cache with
    | some r =>
        have heq : callerStep g c = (g, { c with pc := 3, result := some r }) := by
          unfold callerStep
          rw [h0, hcache]
        rw [heq]
        exact ⟨fun _ => ⟨hcache, rfl⟩, fun h3 => hd h3⟩
    | none =>
        have heq : callerStep g c = (g, { c with pc := 1 }) := by
          unfold callerStep
          rw [h0, hcache]
        rw [heq]
        exact ⟨fun h => by simp at h, fun h3 => hd h3⟩
  · by_cases h1 : c.pc = 1
    · have heq : callerStep g c =
          ({ g with invokeCount := g.invokeCount + 1 },
           { c with pc := 2, myResp := g.invokeCount }) := by
        unfold callerStep
        rw [h1]
      rw [heq]
      exact ⟨fun h => by simp at h, fun h3 => by simpa using hd h3⟩
    · by_cases h2 : c.pc = 2
      · cases hcache : g.cache with
        | some r =>
            have heq : callerStep g c = (g, { c with pc := 3, result := some r }) := by
              unfold callerStep
              rw [h2, hcache]
            rw [heq]
            exact ⟨fun _ => ⟨hcache, rfl⟩, fun h3 => hd h3⟩
        | none =>
            have heq : callerStep g c =
                ({ g with cache := some c.myResp },
                 { c with pc := 3, result := some c.myResp }) := by
              unfold callerStep
              rw [h2, hcache]
            rw [heq]
            refine ⟨fun _ => ⟨rfl, rfl⟩, fun h3 => ?_⟩
            rcases hd h3 with ⟨hd1, hd2⟩
            rw [hcache] at hd1
            rw [← hd1] at hd2
            simp at hd2
      · have hex : ∃ n, c.pc = n + 3 := by
          refine ⟨c.pc - 3, ?_⟩
          omega
        rcases hex with ⟨n, hn⟩
        have heq : callerStep g c = (g, c) := by
          unfold callerStep
          rw [hn]
          rfl
        rw [heq]
        exact ⟨fun h => hc h, fun h3 => hd h3⟩

theorem dedupStep_inv (s : DedupState) (w : Bool) (h : DedupInv s) :
    DedupInv (dedupStep s w) := by
  rcases h with ⟨ha, hb⟩
  cases w with
  | false =>
      have := callerStep_inv s.g s.a s.b ha hb
      exact ⟨this.1, this.2⟩
  | true =>
      have := callerStep_inv s.g s.b s.a hb ha
      exact ⟨this.2, this.1⟩

theorem dedupInv_foldl (sched : List Bool) :
    ∀ s : DedupState, DedupInv s → DedupInv (sched.foldl dedupStep s) := by
  induction sched with
  | nil => intro s h; exact h
  | cons w r ih =>
      intro s h
      exact ih _ (dedupStep_inv s w h)

theorem runDedup_inv (sched : List Bool) : DedupInv (runDedup sched) := by
  unfold runDedup
  apply dedupInv_foldl
  exact ⟨fun h => by simp [dedupInit] at h, fun h => by simp [dedupInit] at h⟩

/-- C1 counterexample: under the schedule A-check, B-check, A-invoke,
B-invoke, A-store, B-double-check (both callers miss the first cache
check before either has invoked), the external `Invoke` executes twice
in one complete run of two concurrent identical `CallTool` calls —
refuting "the external Invoke operation is executed at most once".  Both
callers nevertheless finish with the same result. -/
theorem C1_counterexample :
    (runDedup [false, true, false, true, false, true]).a.pc = 3 ∧
      (runDedup [false, true, false, true, false, true]).b.pc = 3 ∧
      (runDedup [false, true, false, true, false, true]).g.invokeCount = 2 ∧
      ¬(runDedup [false, true, false, true, false, true]).g.invokeCount ≤ 1 := by
  refine ⟨rfl, rfl, rfl, by decide⟩

/-- C1 (amended): for two concurrent `CallTool` invocations with the same
tool name and arguments on one `ManagedConnection`, the external `Invoke`
may execute more than once (each caller that misses the first cache check
performs its own external call), but the double-checked second cache
check guarantees that at most one result is stored and that both callers,
whenever they complete, return that same cached result object. -/
theorem C1_same_result (sched : List Bool)
    (ha : (runDedup sched).a.pc = 3) (hb : (runDedup sched).b.pc = 3) :
    (runDedup sched).a.result = (runDedup sched).b.result ∧
      (runDedup sched).a.result = (runDedup sched).g.cache ∧
      (runDedup sched).a.result.isSome = true := by
  rcases runDedup_inv sched with ⟨h1, h2⟩
  rcases h1 ha with ⟨ha1, ha2⟩
  rcases h2 hb with ⟨hb1, hb2⟩
  exact ⟨ha1 ▸ hb1 ▸ rfl, ha1.symm, ha2⟩

/-- C4: a call that finds a live, active connection reuses it with no new
connect and refreshes `lastActivity` when less than the 120-second reuse
window has elapsed and the liveness probe succeeds; when the window has
elapsed (`120 < now - lastActivity`) or the probe fails, the old
connection is closed exactly once and exactly one new connection is
created. -/
theorem C4_reuse_window (s : SessionState) (now hdl : Nat) (probeOk : Bool)
    (hconn : s.connection = some hdl) (hact : s.sessionActive = true) :
    ((now - s.lastActivity < 120 ∧ probeOk = true) →
        ensureConnection now probeOk s = (hdl, { s with lastActivity := now })) ∧
      ((120 < now - s.lastActivity ∨ probeOk = false) →
        (ensureConnection now probeOk s).1 = s.nextHandle ∧
          (ensureConnection now probeOk s).2.connection = some s.nextHandle ∧
          (ensureConnection now probeOk s).2.connectCount = s.connectCount + 1 ∧
          (ensureConnection now probeOk s).2.closeCount = s.closeCount + 1 ∧
          (ensureConnection now probeOk s).2.lastActivity = now) := by
  constructor
  · rintro ⟨hlt, hp⟩
    simp only [ensureConnection, hconn, hact]
    rw [if_neg (by omega), hp]
    simp
  · intro hcase
    have key : ensureConnection now probeOk s =
        createNewConnection now (cleanupConnection s) := by
      simp only [ensureConnection, hconn, hact]
      rcases hcase with hgt | hp
      · rw [if_pos hgt]
      · by_cases hgt : 120 < now - s.lastActivity
        · rw [if_pos hgt]
        · rw [if_neg hgt, hp]
          simp
    rw [key]
    simp [createNewConnection, cleanupConnection, hconn]

/-- Witness for C4 at a concrete state: 50 seconds elapsed, probe
succeeds, so the connection handle 5 is reused and the activity time is
refreshed. -/
theorem C4_witness :
    ensureConnection 100 true
        { connection := some 5, sessionActive := true, lastActivity := 50,
          nextHandle := 6, connectCount := 1, closeCount := 0 } =
      (5, { connection := some 5, sessionActive := true, lastActivity := 100,
            nextHandle := 6, connectCount := 1, closeCount := 0 }) :=
  (C4_reuse_window
      { connection := some 5, sessionActive := true, lastActivity := 50,
        nextHandle := 6, connectCount := 1, closeCount := 0 }
      100 5 true rfl rfl).1 ⟨by decide, rfl⟩

/-- C5 counterexample: with N = 6 failed attempts (0 < 6 < 10), the
elapsed wait before attempt 7 is 32 seconds — not `min(1·2^6, 30) = 30`
— and it exceeds the claimed 30-second cap, because the loop doubles the
backoff *after* sleeping and keeps doubling while it is `< 30`, so the
backoff overshoots to 32. -/
theorem C5_counterexample :
    0 < 6 ∧ 6 < 10 ∧ waitBeforeAttempt (6 + 1) ≠ min (1 * 2 ^ 6) 30 ∧
      30 < waitBeforeAttempt (6 + 1) := by
  decide

/-- C5 (amended): for every N with 0 < N < 10, the elapsed wait before
attempt N+1 equals `min(2^(N-1), 32)` seconds — the sleep after attempt N
uses the backoff accumulated from the N-1 previous doublings, and the
effective cap is 32 s (the first backoff value ≥ 30 s), not 30 s. -/
theorem C5_backoff_bound :
    ∀ N : Nat, N < 10 → 0 < N → waitBeforeAttempt (N + 1) = min (2 ^ (N - 1)) 32 := by
  decide

/-- Witness for C5 (amended) at N = 6. -/
theorem C5_witness :
    (6 < 10 ∧ 0 < 6) ∧ waitBeforeAttempt (6 + 1) = min (2 ^ (6 - 1)) 32 :=
  ⟨by decide, C5_backoff_bound 6 (by decide) (by decide)⟩

theorem reconnectGo_attempts (outcomes : Nat → Bool) :
    ∀ (r a : Nat) (h : Bool), (reconnectGo outcomes r a h).1 ≤ a + r := by
  intro r
  induction r with
  | zero =>
      intro a h
      simp [reconnectGo]
  | succ n ih =>
      intro a h
      simp only [reconnectGo]
      split
      · omega
      · have hy := ih (a + 1) (outcomes a)
        omega

theorem reconnectGo_all_fail (outcomes : Nat → Bool) :
    ∀ (r a : Nat), a + r ≤ 10 → (∀ i, i < 10 → outcomes i = false) →
      (reconnectGo outcomes r a false).2 = false := by
  intro r
  induction r with
  | zero =>
      intro a _ _
      rfl
  | succ n ih =>
      intro a hle hout
      have hstep : reconnectGo outcomes (n + 1) a false =
          reconnectGo outcomes n (a + 1) (outcomes a) := by
        simp [reconnectGo]
      rw [hstep, hout a (by omega)]
      exact ih (a + 1) (by omega) hout

/-- C6 counterexample: the claim's "stays Unhealthy until a subsequent
independent failure detection starts a new sequence" is false — after the
retry budget is exhausted (state Unhealthy), a *successful* periodic
health probe stores Healthy without any failure detection and without
starting any reconnect sequence (`sequencesStarted` stays 0). -/
theorem C6_counterexample :
    (performHealthCheck true { healthy := false, sequencesStarted := 0 }).healthy
        = true ∧
      (performHealthCheck true { healthy := false, sequencesStarted := 0 }).sequencesStarted
        = 0 := by
  exact ⟨rfl, rfl⟩

/-- C6 (amended): every reconnect sequence performs at most 10 attempts
and terminates; if every attempt fails the health flag is still Unhealthy
when the loop exits; and a failing health probe while already Unhealthy
changes nothing and starts no new reconnect sequence (only a
Healthy→Unhealthy transition triggers one, so the state leaves Unhealthy
only through a successful probe or a successful reconnect attempt). -/
theorem C6_retry_budget (outcomes : Nat → Bool) (n : Nat) :
    (runReconnectLoop outcomes).1 ≤ 10 ∧
      ((∀ i, i < 10 → outcomes i = false) → (runReconnectLoop outcomes).2 = false) ∧
      performHealthCheck false { healthy := false, sequencesStarted := n } =
        { healthy := false, sequencesStarted := n } := by
  refine ⟨?_, fun h => ?_, rfl⟩
  · have hy := reconnectGo_attempts outcomes 10 0 false
    simpa [runReconnectLoop] using hy
  · exact reconnectGo_all_fail outcomes 10 0 (by omega) h

/-- Witness for C6 (amended): all ten attempts failing leaves the state
Unhealthy. -/
theorem C6_witness :
    (runReconnectLoop (fun _ => false)).1 ≤ 10 ∧
      (runReconnectLoop (fun _ => false)).2 = false :=
  ⟨(C6_retry_budget (fun _ => false) 0).1,
   (C6_retry_budget (fun _ => false) 0).2.1 (fun _ _ => rfl)⟩

/-- C7: `GetServer` returns the current handle immediately (zero wait)
whenever the supervisor is healthy; it never blocks longer than the
10-second wait bound; and it returns a server handle only when healthy at
the moment of return — either healthy on entry, or a reconnect signal
carrying a healthy state arrived within the bound.  In every other case
it returns an error. -/
theorem C7_getServer_bounded (healthy : Bool) (handle handleAfter : Nat)
    (ev : Option (Nat × WaitEvent)) :
    (healthy = true →
        getServer healthy handle handleAfter ev = (.server handle, 0)) ∧
      (getServer healthy handle handleAfter ev).2 ≤ 10 ∧
      ((getServer healthy handle handleAfter ev).1.isServer = true →
        healthy = true ∨ ∃ t, t < 10 ∧ ev = some (t, .signal true)) := by
  cases healthy with
  | true =>
      exact ⟨fun _ => rfl, Nat.zero_le _, fun _ => Or.inl rfl⟩
  | false =>
      refine ⟨fun h => absurd h Bool.false_ne_true, ?_, ?_⟩
      · rcases ev with _ | ⟨t, e⟩
        · exact Nat.le_refl 10
        · by_cases ht : t < 10
          · rcases e with hA | _
            · cases hA with
              | false =>
                  have hv : getServer false handle handleAfter
                      (some (t, .signal false)) = (.unavailable, t) := by
                    unfold getServer
                    simp [ht]
                  rw [hv]
                  omega
              | true =>
                  have hv : getServer false handle handleAfter
                      (some (t, .signal true)) = (.server handleAfter, t) := by
                    unfold getServer
                    simp [ht]
                  rw [hv]
                  omega
            · have hv : getServer false handle handleAfter
                  (some (t, .shutdown)) = (.stopped, t) := by
                unfold getServer
                simp [ht]
              rw [hv]
              omega
          · have hv : getServer false handle handleAfter (some (t, e)) =
                (.timedOut, 10) := by
              unfold getServer
              simp [ht]
            rw [hv]
      · intro hres
        right
        rcases ev with _ | ⟨t, e⟩
        · simp [getServer, ServerResult.isServer] at hres
        · by_cases ht : t < 10
          · rcases e with hA | _
            · cases hA with
              | false => simp [getServer, ht, ServerResult.isServer] at hres
              | true => exact ⟨t, ht, rfl⟩
            · simp [getServer, ht, ServerResult.isServer] at hres
          · simp [getServer, ht, ServerResult.isServer] at hres

/-- Witness for C7: with the supervisor unhealthy and a healthy reconnect
signal arriving after 2 seconds, the caller gets the swapped-in handle
within the bound. -/
theorem C7_witness :
    (getServer false 3 4 (some (2, .signal true))).2 ≤ 10 ∧
      (false = true ∨ ∃ t, t < 10 ∧
        (some (2, WaitEvent.signal true) : Option (Nat × WaitEvent)) =
          some (t, .signal true)) :=
  ⟨(C7_getServer_bounded false 3 4 (some (2, .signal true))).2.1,
   (C7_getServer_bounded false 3 4 (some (2, .signal true))).2.2 (by decide)⟩

/-- C8 counterexample: a stream that is still active (its task has not
been reported complete) and was last updated at time 0 is removed by the
automatic cleanup at time 700 s (11 min 40 s) — lookup afterwards finds
nothing, refuting "the core never removes a task automatically based on
elapsed time". -/
theorem C8_counterexample :
    ({ content := "hello", isActive := true, lastUpdate := 0 } : StreamEntry).isActive
        = true ∧
      lookupStream
        (cleanupExpiredStreams 700
          [("s", { content := "hello", isActive := true, lastUpdate := 0 })]) "s"
        = none := by
  exact ⟨rfl, rfl⟩

/-- C8 (amended): the periodic cleanup deletes exactly the streams that
are inactive or whose `LastUpdate` lies more than 600 seconds in the
past; a stream survives the sweep iff it is active and was updated within
the last 10 minutes.  Deletion by the owner (`DeleteStream`) is not the
only removal path. -/
theorem C8_cleanup_policy (now : Nat) (streams : List (String × StreamEntry))
    (id : String) (e : StreamEntry) :
    ((id, e) ∈ cleanupExpiredStreams now streams ↔
      (id, e) ∈ streams ∧ now - e.lastUpdate ≤ 600 ∧ e.isActive = true) := by
  simp [cleanupExpiredStreams, List.mem_filter, Nat.not_lt]

/-- Witness for C1 (amended): a complete sequential schedule (A runs to
completion, then B hits the cache) in which both callers return the
single cached result. -/
theorem C1_witness :
    (runDedup [false, false, false, true]).a.pc = 3 ∧
      (runDedup [false, false, false, true]).b.pc = 3 ∧
      ((runDedup [false, false, false, true]).a.result =
          (runDedup [false, false, false, true]).b.result ∧
        (runDedup [false, false, false, true]).a.result =
          (runDedup [false, false, false, true]).g.cache ∧
        (runDedup [false, false, false, true]).a.result.isSome = true) :=
  ⟨rfl, rfl, C1_same_result [false, false, false, true] rfl rfl⟩
